import Mathlib

/-!
Shallow embedding of the discharge-summary traceability pipeline of
`backend/core/ollama_service.py` and `backend/core/services.py`
(Xodacan/NextGenAI), together with proofs settling the frozen claims.

Strings are modelled as `List Char`; Python regular-expression passes are
modelled as explicit left-to-right scans with the exact greedy/backtracking
behaviour of the corresponding patterns.  All scanning functions are
structurally recursive on a fuel argument; wrappers supply fuel equal to the
input length, which is sufficient because every step consumes at least one
input character.
-/

set_option maxRecDepth 40000

/-- Characters of a string literal (the `List Char` model of a Python str). -/
def str (s : String) : List Char := s.data

/-- Python `\s` / `str.strip()` whitespace (ASCII range, as used by the code). -/
def isPyWs (c : Char) : Bool :=
  c == ' ' || c == '\t' || c == '\n' || c == '\r' || c == Char.ofNat 11 || c == Char.ofNat 12

/-- Characters admitted by the tag-code class `[A-Z&]`. -/
def isTagCode (c : Char) : Bool :=
  (65 ≤ c.toNat && c.toNat ≤ 90) || c == '&'

/-- Boolean membership of a character in a character list. -/
def elemC (c : Char) : List Char → Bool
  | [] => false
  | a :: t => (a == c) || elemC c t

/-- Boolean prefix test (case sensitive), `str.startswith`. -/
def startsWithL : List Char → List Char → Bool
  | [], _ => true
  | _ :: _, [] => false
  | p :: ps, a :: as => (p == a) && startsWithL ps as

/-- Python `pat in s` substring test. -/
def containsSub (pat : List Char) : List Char → Bool
  | [] => startsWithL pat []
  | a :: t => startsWithL pat (a :: t) || containsSub pat t

/-- Count of non-overlapping occurrences of `pat` (Python `str.count`). -/
def countOccGo (pat : List Char) : Nat → List Char → Nat
  | 0, _ => 0
  | _ + 1, [] => 0
  | f + 1, a :: t =>
    if startsWithL pat (a :: t) then 1 + countOccGo pat f (List.drop pat.length (a :: t))
    else countOccGo pat f t

/-- Count of non-overlapping occurrences of a (nonempty) pattern. -/
def countOcc (pat l : List Char) : Nat := countOccGo pat l.length l

/-- Strip leading Python whitespace. -/
def stripLeftL (l : List Char) : List Char := l.dropWhile isPyWs

/-- Strip trailing Python whitespace. -/
def stripRightL (l : List Char) : List Char := (l.reverse.dropWhile isPyWs).reverse

/-- Python `str.strip()`. -/
def stripL (l : List Char) : List Char := stripRightL (stripLeftL l)

/-- Case-insensitive ASCII character comparison (Python `re.IGNORECASE`). -/
def ciCharEq (a b : Char) : Bool :=
  (a == b)
    || ((65 ≤ a.toNat && a.toNat ≤ 90) && a.toNat + 32 == b.toNat)
    || ((65 ≤ b.toNat && b.toNat ≤ 90) && b.toNat + 32 == a.toNat)

/-- Case-insensitive prefix test. -/
def ciStarts : List Char → List Char → Bool
  | [], _ => true
  | _ :: _, [] => false
  | p :: ps, a :: as => ciCharEq p a && ciStarts ps as

/-- Case-insensitive equality of character lists (Python `a.lower() == b.lower()`). -/
def ciEqL : List Char → List Char → Bool
  | [], [] => true
  | a :: as, b :: bs => ciCharEq a b && ciEqL as bs
  | _, _ => false

/-- Join a list of chunks with a separator (`sep.join(chunks)`). -/
def joinSep (sep : List Char) : List (List Char) → List Char
  | [] => []
  | [x] => x
  | x :: y :: r => x ++ sep ++ joinSep sep (y :: r)

/-- Decimal digits of a natural number, for f-string interpolation of indices. -/
def natStr (n : Nat) : List Char := Nat.toDigits 10 n

/-!
## Provenance extractor: the four source-tag patterns

`generate_patient_summary_with_sources` pools `re.findall` matches of
```
r'\[([A-Z&]+):\s*([^\]]+)\]'      (P1)
r'\[([A-Z&]+):([^\]]+)\]'         (P2)
r'\[([A-Z&]+)\s*:\s*([^\]]+)\]'   (P3, listed twice — P4 is identical)
```
`matchTag wb wa` matches one tag at the head of the list, where `wb` is
whether `\s*` is allowed before the colon and `wa` whether `\s*` follows it.
-/

/-- Match `([A-Z&]+)` then (optionally `\s*` then) `:`; returns the code and
the text after the colon. -/
def afterCode (wb : Bool) (t : List Char) : Option (List Char × List Char) :=
  let code := t.takeWhile isTagCode
  let t1 := t.dropWhile isTagCode
  if code.isEmpty then none
  else
    let t2 := if wb then t1.dropWhile isPyWs else t1
    match t2 with
    | ':' :: t3 => some (code, t3)
    | _ => none

/-- Match (optionally `\s*` then) `([^\]]+)` then `]` at the head of `t3`;
returns the captured content and the rest after the closing bracket.  The
`wa` case reproduces the backtracking of greedy `\s*` followed by `[^\]]+`:
if everything before `]` is whitespace, `\s*` gives one character back. -/
def tagBody (wa : Bool) (t3 : List Char) : Option (List Char × List Char) :=
  let body := t3.takeWhile (fun c => c != ']')
  let t4 := t3.dropWhile (fun c => c != ']')
  match t4 with
  | ']' :: rest =>
    if wa then
      let ct := body.dropWhile isPyWs
      if ct.isEmpty then
        match body.getLast? with
        | some x => some ([x], rest)
        | none => none
      else some (ct, rest)
    else if body.isEmpty then none else some (body, rest)
  | _ => none

/-- Match one source tag `[CODE: content]` at the head of `l`. -/
def matchTag (wb wa : Bool) (l : List Char) : Option (List Char × List Char × List Char) :=
  match l with
  | [] => none
  | a :: t =>
    if a = '[' then
      match afterCode wb t with
      | none => none
      | some (cd, t3) =>
        match tagBody wa t3 with
        | none => none
        | some (ct, rest) => some (cd, ct, rest)
    else none

/-- `re.findall` of one tag pattern: scan left to right, non-overlapping. -/
def scanTagsGo (wb wa : Bool) : Nat → List Char → List (List Char × List Char)
  | 0, _ => []
  | _ + 1, [] => []
  | f + 1, a :: t =>
    match matchTag wb wa (a :: t) with
    | some (cd, ct, rest) => (cd, ct) :: scanTagsGo wb wa f rest
    | none => scanTagsGo wb wa f t

/-- All `(code, content)` matches of one pattern variant. -/
def scanTags (wb wa : Bool) (l : List Char) : List (List Char × List Char) :=
  scanTagsGo wb wa l.length l

/-- The pooled matches of the four patterns, in the order the code collects
them (P4 is a literal duplicate of P3 in the source list). -/
def pooledMatches (l : List Char) : List (List Char × List Char) :=
  scanTags false true l ++ scanTags false false l ++ scanTags true true l ++ scanTags true true l

/-- Order-preserving removal of duplicates using a seen-set, as in the code's
`seen = set(); unique_matches = []` loop. -/
def dedupGo {α : Type} [DecidableEq α] (seen : List α) : List α → List α
  | [] => []
  | a :: t => if a ∈ seen then dedupGo seen t else a :: dedupGo (a :: seen) t

/-- First-seen-order deduplication. -/
def dedupFirst {α : Type} [DecidableEq α] (l : List α) : List α := dedupGo [] l

/-- The deduplicated tag list the extractor iterates over. -/
def extractPairs (l : List Char) : List (List Char × List Char) :=
  dedupFirst (pooledMatches l)

/-- The fixed code→category table (`source_mapping`); unknown codes resolve
to themselves. -/
def resolveCode (code : List Char) : List Char :=
  if code = str "LAB" then str "Lab Results"
  else if code = str "RAD" then str "Radiology Report"
  else if code = str "PROG" then str "Progress Notes"
  else if code = str "DISCH" then str "Discharge Instructions"
  else if code = str "MED" then str "Medication List"
  else if code = str "VITALS" then str "Vital Signs"
  else if code = str "CONSULT" then str "Consultation Notes"
  else if code = str "SURG" then str "Surgery Notes"
  else if code = str "ED" then str "Emergency Department Notes"
  else if code = str "NURSING" then str "Nursing Notes"
  else if code = str "PATH" then str "Pathology Report"
  else if code = str "PE" then str "Physical Examination"
  else if code = str "H&P" then str "History and Physical"
  else if code = str "OP" then str "Operative Report"
  else if code = str "SYSTEM" then str "System Generated"
  else code

/-- Insert-or-accumulate on an insertion-ordered association list, matching
`if k not in d: d[k] = 0; d[k] += n` on a Python dict. -/
def bump : List (List Char × Nat) → List Char → Nat → List (List Char × Nat)
  | [], k, n => [(k, n)]
  | (k', v) :: t, k, n => if k' = k then (k', v + n) :: t else (k', v) :: bump t k n

/-- The `source_usage` dict accumulated over the (deduplicated) tag pairs. -/
def buildUsage (pairs : List (List Char × List Char)) : List (List Char × Nat) :=
  pairs.foldl (fun u p => bump u (resolveCode p.1) (stripL p.2).length) []

/-- Look up a category's usage count (0 when the category has no entry). -/
def usageCount (u : List (List Char × Nat)) (k : List Char) : Nat :=
  match u with
  | [] => 0
  | (k', v) :: t => if k' = k then v else usageCount t k

/-- Sum of all usage values (`sum(source_usage.values())`). -/
def sumUsage (u : List (List Char × Nat)) : Nat := (u.map (fun p => p.2)).sum

/-!
## Attribution records

Lines 325-341 of `ollama_service.py`: for each surviving tag, locate the
first source document whose declared type case-insensitively equals the
resolved category, and store up to 500 characters of its content — or the
sentinel when no document matches or the matched content is falsy (empty).
-/

/-- A source document as assembled at lines 198-205 (`content`, `title`,
`type`; `type` is a Lean keyword, hence `dtype`). -/
structure SrcDoc where
  title : List Char
  dtype : List Char
  content : List Char
deriving DecidableEq

/-- First document whose `type` matches the category case-insensitively
(`doc.get('type', '').lower() == full_type.lower()`), yielding its content. -/
def findDocContent (docs : List SrcDoc) (full : List Char) : Option (List Char) :=
  match docs with
  | [] => none
  | d :: t => if ciEqL d.dtype full then some d.content else findDocContent t full

/-- One attribution record (`source_attributions[...]` value). -/
structure Attribution where
  source_type : List Char
  full_type : List Char
  content : List Char
  source_document : List Char
deriving DecidableEq

/-- `source_doc_content[:500] if source_doc_content else "Source document not found"`:
both a missing match and an empty matched content give the sentinel. -/
def sourceDocField (found : Option (List Char)) : List Char :=
  match found with
  | some c => if c.isEmpty then str "Source document not found" else c.take 500
  | none => str "Source document not found"

/-- Build the attribution record for one `(code, content)` tag. -/
def mkAttribution (docs : List SrcDoc) (code content : List Char) : Attribution :=
  let full := resolveCode code
  { source_type := code
    full_type := full
    content := stripL content
    source_document := sourceDocField (findDocContent docs full) }

/-- `f"{source_type}_{content[:30].replace(' ', '_')}"`. -/
def attrKey (code content : List Char) : List Char :=
  code ++ '_' :: (content.take 30).map (fun c => if c = ' ' then '_' else c)

/-- Python dict assignment on an insertion-ordered association list
(overwrites in place, appends new keys). -/
def insertOW : List (List Char × Attribution) → List Char → Attribution →
    List (List Char × Attribution)
  | [], k, v => [(k, v)]
  | (k', v') :: t, k, v => if k' = k then (k, v) :: t else (k', v') :: insertOW t k v

/-- The `source_attributions` dict over the deduplicated tag pairs. -/
def buildAttributions (docs : List SrcDoc) (pairs : List (List Char × List Char)) :
    List (List Char × Attribution) :=
  pairs.foldl (fun m p => insertOW m (attrKey p.1 p.2) (mkAttribution docs p.1 p.2)) []

example : scanTags false true (str "[LAB: Troponin 2.5 elevated]") =
    [(str "LAB", str "Troponin 2.5 elevated")] := by decide

example : scanTags false false (str "[LAB: Troponin 2.5 elevated]") =
    [(str "LAB", str " Troponin 2.5 elevated")] := by decide

example : extractPairs (str "[LAB: Troponin 2.5 elevated] [LAB: Troponin 2.5 elevated]") =
    [(str "LAB", str "Troponin 2.5 elevated"), (str "LAB", str " Troponin 2.5 elevated")] := by
  decide

example : usageCount (buildUsage (extractPairs
    (str "[LAB: Troponin 2.5 elevated] [LAB: Troponin 2.5 elevated]"))) (str "Lab Results") =
    42 := by decide

/-!
## Document formatter: `_clean_document_formatting`

Nine regex passes in source order: remove `\*{3,}`, strip leading bullets
(`^\s*[\*\-\+]\s+`, MULTILINE), remove `-{3,}`, `={3,}`, `_{3,}`, collapse
`\ {2,}` to one space, collapse `\n{3,}` to two newlines, strip every line,
strip the whole text.
-/

/-- Collapse maximal runs of `c`: a run of length `≥ k` is replaced by `m`
copies (`m = 0` removes it).  `n` counts the pending run. -/
def crGo (c : Char) (k m : Nat) : Nat → List Char → List Char
  | n, [] => List.replicate (if n ≥ k then m else n) c
  | n, a :: t =>
    if a = c then crGo c k m (n + 1) t
    else List.replicate (if n ≥ k then m else n) c ++ a :: crGo c k m 0 t

/-- `re.sub(c{k,}, c*m, text)` for a single repeated character. -/
def collapseRuns (c : Char) (k m : Nat) (l : List Char) : List Char := crGo c k m 0 l

/-- Match `^\s*[\*\-\+]\s+` at a line start: maximal whitespace (which may
cross line breaks), one bullet character, then at least one whitespace
character (greedy).  Returns the consumed length and whether the match ends
immediately after a newline (so the next scan position is again `^`). -/
def bulletMatch (l : List Char) : Option (Nat × Bool) :=
  let w := l.takeWhile isPyWs
  match l.drop w.length with
  | b :: l2 =>
    if b == '*' || b == '-' || b == '+' then
      let w2 := l2.takeWhile isPyWs
      if w2.isEmpty then none
      else some (w.length + 1 + w2.length, (w2.getLastD ' ') == '\n')
    else none
  | [] => none

/-- `re.sub(r'^\s*[\*\-\+]\s+', '', text, flags=re.MULTILINE)`:
`atLS` records whether the current position is a line start (`^`). -/
def sbGo : Nat → Bool → List Char → List Char
  | 0, _, l => l
  | _ + 1, _, [] => []
  | f + 1, atLS, a :: t =>
    if atLS then
      match bulletMatch (a :: t) with
      | some (n, nl) => sbGo f nl (List.drop n (a :: t))
      | none => a :: sbGo f (a == '\n') t
    else a :: sbGo f (a == '\n') t

/-- Bullet-marker stripping pass. -/
def stripBullets (l : List Char) : List Char := sbGo l.length true l

/-- Python `text.split('\n')` (always at least one chunk). -/
def splitNl : List Char → List (List Char)
  | [] => [[]]
  | a :: t =>
    if a = '\n' then [] :: splitNl t
    else
      match splitNl t with
      | [] => [[a]]
      | h :: r => (a :: h) :: r

/-- `'\n'.join(line.strip() for line in text.split('\n'))`. -/
def stripLines (l : List Char) : List Char :=
  joinSep ['\n'] ((splitNl l).map stripL)

/-- `OllamaService._clean_document_formatting`. -/
def cleanDocL (l : List Char) : List Char :=
  stripL (stripLines (collapseRuns '\n' 3 2 (collapseRuns ' ' 2 1
    (collapseRuns '_' 3 0 (collapseRuns '=' 3 0 (collapseRuns '-' 3 0
      (stripBullets (collapseRuns '*' 3 0 l))))))))

/-!
## Tag stripping: `re.sub(source_patterns[0], r'\2', summary)`

One left-to-right pass of pattern P1, each match replaced by its captured
content.
-/

/-- The substitution scan for P1 (`subGo fuel l`). -/
def subGo : Nat → List Char → List Char
  | 0, l => l
  | _ + 1, [] => []
  | f + 1, a :: t =>
    match matchTag false true (a :: t) with
    | some (_, ct, rest) => ct ++ subGo f rest
    | none => a :: subGo f t

/-- Replace every P1 tag by its content (the "clean summary" pass). -/
def stripTags (l : List Char) : List Char := subGo l.length l

/-- True when some position of `l` matches the source-tag grammar
`\[[A-Z&]+:\s*[^\]]+\]` (pattern P1, the grammar named by the spec). -/
def hasGo : Nat → List Char → Bool
  | 0, _ => false
  | _ + 1, [] => false
  | f + 1, a :: t => (matchTag false true (a :: t)).isSome || hasGo f t

/-- Some substring of `l` matches the source-tag grammar. -/
def hasTagSub (l : List Char) : Bool := hasGo l.length l

/-- Every `[` reached by the left-to-right P1 scan opens a well-formed tag
whose captured content contains no `[`. -/
def okGo : Nat → List Char → Bool
  | 0, l => l.isEmpty
  | _ + 1, [] => true
  | f + 1, a :: t =>
    match matchTag false true (a :: t) with
    | some (_, ct, rest) => !(elemC '[' ct) && okGo f rest
    | none => (a != '[') && okGo f t

/-- All opening brackets of `l` open bracket-free well-formed tags. -/
def okBrackets (l : List Char) : Bool := okGo l.length l

example : stripTags (str "[LAB: [MED: y] z]") = str "[MED: y z]" := by decide
example : hasTagSub (str "[MED: y z]") = true := by decide
example : cleanDocL (str "- - foo") = str "- foo" := by decide
example : cleanDocL (str "- foo") = str "foo" := by decide
example : stripBullets (str "a\n\n* foo") = str "a\nfoo" := by decide
example : collapseRuns '*' 3 0 (str "ab***cd**") = str "abcd**" := by decide

/-!
## Fallback tagger: `_inject_source_tags_fallback`

Each table entry is `re.sub(r'LABEL:\s*([^\n]+)', repl_fn, s, flags=re.IGNORECASE)`
where `repl_fn` wraps the stripped captured value as
`{label}: [{TAG}: {value}]` unless the value strips to empty or to the
literal "Not documented".  The documents argument of the Python function is
only used to build two mappings that the tagging loop never reads, so the
embedding takes the summary alone.
-/

/-- Greedy `\s*` then `([^\n]+)` after the colon.  Returns the raw captured
content and the number of characters consumed after the colon.  When all
remaining characters are whitespace, greedy `\s*` backtracks just enough for
`[^\n]+` to take one trailing non-newline whitespace character. -/
def wsContent (l : List Char) : Option (List Char × Nat) :=
  let w := l.takeWhile isPyWs
  match l.drop w.length with
  | _ :: _ =>
    let ct := (l.drop w.length).takeWhile (fun c => c != '\n')
    some (ct, w.length + ct.length)
  | [] =>
    let w' := (w.reverse.dropWhile (fun c => c == '\n')).reverse
    match w'.getLast? with
    | some x => some ([x], w'.length)
    | none => none

/-- Match one fallback pattern at the head of `l`: the label literal
(case-insensitively; `optS` admits the `s?` of `Medications?`/`Lab Results?`),
a colon, then `\s*([^\n]+)`.  Returns the replacement text produced by the
code's `replace_with_tag` and the total matched length. -/
def labelMatchAt (base : List Char) (optS : Bool) (tag : List Char) (l : List Char) :
    Option (List Char × Nat) :=
  if ciStarts base l then
    let n := base.length
    let colonLen : Option Nat :=
      match l.drop n with
      | [] => none
      | c :: tl =>
        if c = ':' then some 1
        else if optS && ciCharEq 's' c then
          match tl with
          | ':' :: _ => some 2
          | _ => none
        else none
    match colonLen with
    | none => none
    | some k =>
      match wsContent (l.drop (n + k)) with
      | none => none
      | some (ct, consumed) =>
        let matchLen := n + k + consumed
        let lblText := l.take (n + k - 1)
        let stripped := stripL ct
        if stripped.isEmpty || stripped = str "Not documented" then
          some (l.take matchLen, matchLen)
        else
          some (lblText ++ str ": [" ++ tag ++ str ": " ++ stripped ++ str "]", matchLen)
  else none

/-- One `re.sub` pass for a fallback pattern. -/
def subLabelGo (base : List Char) (optS : Bool) (tag : List Char) :
    Nat → List Char → List Char
  | 0, l => l
  | _ + 1, [] => []
  | f + 1, a :: t =>
    match labelMatchAt base optS tag (a :: t) with
    | some (repl, n) => repl ++ subLabelGo base optS tag f (List.drop n (a :: t))
    | none => a :: subLabelGo base optS tag f t

/-- One fallback pattern applied over the whole text. -/
def subLabel (base : List Char) (optS : Bool) (tag : List Char) (l : List Char) : List Char :=
  subLabelGo base optS tag l.length l

/-- The `patterns_to_tag` table, in source order. -/
def patternsToTag : List (List Char × Bool × List Char) :=
  [ (str "Patient Name", false, str "PROG")
  , (str "Name", false, str "PROG")
  , (str "Date of Birth", false, str "PROG")
  , (str "DOB", false, str "PROG")
  , (str "Age", false, str "PROG")
  , (str "Gender", false, str "PROG")
  , (str "Room", false, str "PROG")
  , (str "Bed", false, str "PROG")
  , (str "Blood Pressure", false, str "VITALS")
  , (str "BP", false, str "VITALS")
  , (str "Heart Rate", false, str "VITALS")
  , (str "HR", false, str "VITALS")
  , (str "Temperature", false, str "VITALS")
  , (str "Temp", false, str "VITALS")
  , (str "Respiratory Rate", false, str "VITALS")
  , (str "RR", false, str "VITALS")
  , (str "Oxygen Saturation", false, str "VITALS")
  , (str "SpO2", false, str "VITALS")
  , (str "Medication", true, str "MED")
  , (str "Medication List", false, str "MED")
  , (str "Current Medications", false, str "MED")
  , (str "Drugs", false, str "MED")
  , (str "Lab Result", true, str "LAB")
  , (str "Laboratory", false, str "LAB")
  , (str "Blood Work", false, str "LAB")
  , (str "Troponin", false, str "LAB")
  , (str "Creatinine", false, str "LAB")
  , (str "Glucose", false, str "LAB")
  , (str "Hemoglobin", false, str "LAB")
  , (str "White Blood Cell", false, str "LAB")
  , (str "WBC", false, str "LAB")
  , (str "Imaging", false, str "RAD")
  , (str "X-ray", false, str "RAD")
  , (str "Chest X-ray", false, str "RAD")
  , (str "CXR", false, str "RAD")
  , (str "CT", false, str "RAD")
  , (str "MRI", false, str "RAD")
  , (str "Ultrasound", false, str "RAD")
  , (str "ECG", false, str "RAD")
  , (str "EKG", false, str "RAD")
  , (str "Chief Complaint", false, str "ED")
  , (str "CC", false, str "ED")
  , (str "History of Present Illness", false, str "H&P")
  , (str "HPI", false, str "H&P")
  , (str "Physical Examination", false, str "PE")
  , (str "PE", false, str "PE")
  , (str "Assessment and Plan", false, str "PROG")
  , (str "A&P", false, str "PROG")
  , (str "Plan", false, str "PROG")
  , (str "Assessment", false, str "PROG")
  , (str "Discharge Instructions", false, str "DISCH")
  , (str "Discharge Plan", false, str "DISCH")
  , (str "Follow-up", false, str "DISCH")
  , (str "Follow up", false, str "DISCH")
  , (str "Procedure", false, str "SURG")
  , (str "Surgery", false, str "SURG")
  , (str "Operation", false, str "SURG")
  , (str "PCI", false, str "SURG")
  , (str "Catheterization", false, str "SURG")
  , (str "Consultation", false, str "CONSULT")
  , (str "Consult", false, str "CONSULT")
  , (str "Specialist", false, str "CONSULT")
  , (str "Nursing Care", false, str "NURSING")
  , (str "Nursing Plan", false, str "NURSING")
  , (str "Care Plan", false, str "NURSING")
  ]

/-- `OllamaService._inject_source_tags_fallback` (the documents argument is
unused by the tagging loop). -/
def injectFallback (s : List Char) : List Char :=
  patternsToTag.foldl (fun acc p => subLabel p.1 p.2.1 p.2.2 acc) s

example : subLabel (str "Blood Pressure") false (str "VITALS") (str "Blood Pressure: 120/80") =
    str "Blood Pressure: [VITALS: 120/80]" := by decide
example : subLabel (str "Medication") true (str "MED") (str "Medications: none") =
    str "Medications: [MED: none]" := by decide
example : subLabel (str "Plan") false (str "PROG") (str "Plan: Not documented") =
    str "Plan: Not documented" := by decide

/-!
## Template normalizer: `TemplateProcessingService._clean_template_content`

Twenty-two case-insensitive literal replacements applied in dict order; then
the directive block is prepended when the literal `IMPORTANT:` is absent.
-/

/-- One `re.sub(escaped_literal, repl, s, flags=re.IGNORECASE)` pass. -/
def ciReplaceGo (pat repl : List Char) : Nat → List Char → List Char
  | 0, l => l
  | _ + 1, [] => []
  | f + 1, a :: t =>
    if ciStarts pat (a :: t) then repl ++ ciReplaceGo pat repl f (List.drop pat.length (a :: t))
    else a :: ciReplaceGo pat repl f t

/-- Case-insensitive literal replacement over the whole text. -/
def ciReplace (pat repl l : List Char) : List Char := ciReplaceGo pat repl l.length l

/-- The `replacements` table, in source (dict insertion) order. -/
def templReplacements : List (List Char × List Char) :=
  [ (str "[Patient Name]", str "[EXTRACT PATIENT NAME FROM DOCUMENTS]")
  , (str "[patient_name]", str "[EXTRACT PATIENT NAME FROM DOCUMENTS]")
  , (str "[Diagnostic test]", str "[LIST ALL DIAGNOSTIC TESTS PERFORMED FROM DOCUMENTS]")
  , (str "[diagnostic_test]", str "[LIST ALL DIAGNOSTIC TESTS PERFORMED FROM DOCUMENTS]")
  , (str "[Any additional treatments]", str "[LIST ALL TREATMENTS GIVEN FROM DOCUMENTS]")
  , (str "[any_additional_treatments]", str "[LIST ALL TREATMENTS GIVEN FROM DOCUMENTS]")
  , (str "\x7bpatient_name\x7d", str "[EXTRACT PATIENT NAME FROM DOCUMENTS]")
  , (str "\x7bdate_of_birth\x7d", str "[EXTRACT DATE OF BIRTH FROM DOCUMENTS]")
  , (str "\x7badmission_date\x7d", str "[EXTRACT ADMISSION DATE FROM DOCUMENTS]")
  , (str "\x7broom_number\x7d", str "[EXTRACT ROOM/BED NUMBER FROM DOCUMENTS]")
  , (str "\x7boccupant_type\x7d", str "[EXTRACT OCCUPANT TYPE (Room/Bed/ER Patient) FROM DOCUMENTS]")
  , (str "\x7boccupant_value\x7d", str "[EXTRACT ROOM/BED NUMBER OR ER DESIGNATION FROM DOCUMENTS]")
  , (str "\x7bcurrent_date\x7d", str "[CURRENT DATE]")
  , (str "\x7bprimary_diagnosis\x7d", str "[EXTRACT PRIMARY DIAGNOSIS FROM DOCUMENTS]")
  , (str "\x7bsecondary_diagnoses\x7d", str "[EXTRACT SECONDARY DIAGNOSES FROM DOCUMENTS]")
  , (str "\x7bprocedures\x7d", str "[LIST ALL PROCEDURES PERFORMED FROM DOCUMENTS]")
  , (str "\x7bhospital_course\x7d", str "[DESCRIBE HOSPITAL STAY FROM DOCUMENTS]")
  , (str "\x7bmedications\x7d", str "[LIST ALL MEDICATIONS FROM DOCUMENTS]")
  , (str "\x7bdischarge_instructions\x7d", str "[EXTRACT DISCHARGE INSTRUCTIONS FROM DOCUMENTS]")
  , (str "\x7bfollow_up\x7d", str "[EXTRACT FOLLOW-UP PLANS FROM DOCUMENTS]")
  , (str "\x7bdischarge_condition\x7d", str "[DESCRIBE CONDITION AT DISCHARGE FROM DOCUMENTS]")
  , (str "\x7bdoctor_name\x7d", str "[EXTRACT PHYSICIAN NAME FROM DOCUMENTS]")
  ]

/-- The directive block prepended when `IMPORTANT:` is absent (verbatim from
the source, including the trailing space after "documents."). -/
def importantBlock : List Char :=
  str "IMPORTANT INSTRUCTIONS:\nReplace all bracketed text with actual information extracted from the patient's medical documents. \nIf information is not available, state \"Not documented\".\n\n"

/-- `TemplateProcessingService._clean_template_content`. -/
def cleanTemplateContent (t : List Char) : List Char :=
  let u := templReplacements.foldl (fun acc pr => ciReplace pr.1 pr.2 acc) t
  if containsSub (str "IMPORTANT:") u then u else importantBlock ++ u

example : containsSub (str "IMPORTANT:") importantBlock = false := by decide
example : cleanTemplateContent (str "foo") = importantBlock ++ str "foo" := by decide

/-!
## Document aggregator: `generate_discharge_summary_from_object._to_text`

A documents entry is either a plain string or a dict; for a dict the first
of the keys `content`, `text`, `body`, `note`, `title` holding a string with
non-empty strip supplies the block body.  When no document yields a block,
thirteen well-known root fields are scanned.  The collected blocks are
joined with a blank line and the result stripped.
-/

/-- One entry of `patient_record["documents"]`. -/
inductive DocItem where
  | strD (s : List Char)
  | objD (content text body note title dtype : Option (List Char))
deriving DecidableEq

/-- The root object passed to `_to_text`: the optional documents list plus
the `common_fields` the fallback scan recognizes (absent keys are `none`). -/
structure PatientRecord where
  documents : Option (List DocItem)
  history : Option (List Char) := none
  presenting_complaint : Option (List Char) := none
  assessment : Option (List Char) := none
  plan : Option (List Char) := none
  medications : Option (List Char) := none
  allergies : Option (List Char) := none
  diagnoses : Option (List Char) := none
  labs : Option (List Char) := none
  imaging : Option (List Char) := none
  vitals : Option (List Char) := none
  procedures : Option (List Char) := none
  progress_notes : Option (List Char) := none
  discharge_instructions : Option (List Char) := none

/-- First of the candidate key values that is a present string with
non-empty strip (the `for key in ("content", "text", "body", "note", "title")`
loop). -/
def firstTextVal : List (Option (List Char)) → Option (List Char)
  | [] => none
  | none :: rest => firstTextVal rest
  | some s :: rest => if (stripL s).isEmpty then firstTextVal rest else some s

/-- Render one documents entry as its labeled block (or skip it). -/
def renderItem (idx : Nat) : DocItem → Option (List Char)
  | .strD s =>
    if (stripL s).isEmpty then none
    else some (str "===== Document " ++ natStr (idx + 1) ++ str " =====\n" ++ stripL s)
  | .objD c te b no ti ty =>
    match firstTextVal [c, te, b, no, ti] with
    | none => none
    | some v =>
      let title := match ti with
        | some x => x
        | none => str "Document " ++ natStr (idx + 1)
      let dty := match ty with
        | some x => x
        | none => str "Unknown Type"
      some (str "===== " ++ title ++ str " (" ++ dty ++ str ") =====\n" ++ stripL v)

/-- The enumerate loop over the documents list. -/
def collectGo (idx : Nat) : List DocItem → List (List Char)
  | [] => []
  | it :: t =>
    match renderItem idx it with
    | some blk => blk :: collectGo (idx + 1) t
    | none => collectGo (idx + 1) t

/-- Blocks collected from the explicit documents list (`[]` when the key is
absent or not a list). -/
def collectDocs : Option (List DocItem) → List (List Char)
  | none => []
  | some items => collectGo 0 items

/-- The `common_fields` of the root-field fallback, with their
`field.replace('_', ' ').title()` display names, in source order. -/
def rootEntries (rec : PatientRecord) : List (List Char × Option (List Char)) :=
  [ (str "History", rec.history)
  , (str "Presenting Complaint", rec.presenting_complaint)
  , (str "Assessment", rec.assessment)
  , (str "Plan", rec.plan)
  , (str "Medications", rec.medications)
  , (str "Allergies", rec.allergies)
  , (str "Diagnoses", rec.diagnoses)
  , (str "Labs", rec.labs)
  , (str "Imaging", rec.imaging)
  , (str "Vitals", rec.vitals)
  , (str "Procedures", rec.procedures)
  , (str "Progress Notes", rec.progress_notes)
  , (str "Discharge Instructions", rec.discharge_instructions)
  ]

/-- Blocks collected from the root fields. -/
def collectRoot : List (List Char × Option (List Char)) → List (List Char)
  | [] => []
  | (name, v) :: t =>
    match v with
    | some s =>
      if (stripL s).isEmpty then collectRoot t
      else (str "===== " ++ name ++ str " =====\n" ++ stripL s) :: collectRoot t
    | none => collectRoot t

/-- Every recognized root field is absent or strips to empty. -/
def allRootEmpty (rec : PatientRecord) : Bool :=
  (rootEntries rec).all (fun p =>
    match p.2 with
    | none => true
    | some s => (stripL s).isEmpty)

/-- `_to_text(record)`: documents first, root fields as fallback, blocks
joined with a blank line, result stripped. -/
def toText (rec : PatientRecord) : List Char :=
  let c := collectDocs rec.documents
  let c' := if c.isEmpty then collectRoot (rootEntries rec) else c
  stripL (joinSep (str "\n\n") c')

/-!
## Summary generator: `generate_discharge_summary_from_object`

The inference call is an external capability; its outcome is passed in as
`Except` (an exception message, or the returned text).  The function returns
the result string paired with whether the inference capability was invoked
(the code returns the sentinel before constructing the model when no content
exists).
-/

/-- `generate_discharge_summary_from_object`, with the inference outcome
abstracted; the second component records whether inference was invoked. -/
def generateDischargeRun (rec : PatientRecord) (llm : Except (List Char) (List Char)) :
    List Char × Bool :=
  let dt := toText rec
  if dt.isEmpty then (str "No medical document content provided.", false)
  else
    match llm with
    | .ok s => (s, true)
    | .error e => (str "Error generating summary: " ++ e, true)

/-!
## The provenance pipeline: `generate_patient_summary_with_sources`

`highlighted_summary` is captured from the raw model text before the
fallback branch runs; the fallback branch then rebinds `summary`, so tag
extraction and the clean summary work on the possibly-retagged text while
the highlighted summary always derives from the original raw text.
-/

/-- The returned dictionary. -/
structure Outcome where
  summary : List Char
  highlighted_summary : List Char
  source_usage : List (List Char × Nat)
  source_attributions : List (List Char × Attribution)
  total_characters : Nat
  source_character_count : Nat
deriving DecidableEq

/-- The literal compliance marker the prompt asks the model to emit. -/
def trackingMarker : List Char := str "SOURCE_TRACKING_ENABLED: YES"

/-- The branch condition at the `if "SOURCE_TRACKING_ENABLED: YES" in summary`
check: the fallback tagger runs exactly when the marker is absent. -/
def fallbackInvoked (raw : List Char) : Bool := !(containsSub trackingMarker raw)

/-- Post-processing of the raw model text (lines 253-365 of the source). -/
def processSummary (raw : List Char) (docs : List SrcDoc) : Outcome :=
  let s1 := if fallbackInvoked raw then injectFallback raw else raw
  let pairs := extractPairs s1
  let usage := buildUsage pairs
  let attrs := buildAttributions docs pairs
  let clean := cleanDocL (stripTags s1)
  let hl := cleanDocL raw
  { summary := clean
    highlighted_summary := hl
    source_usage := usage
    source_attributions := attrs
    total_characters := clean.length
    source_character_count := sumUsage usage }

/-- A document dict as built at lines 198-205. -/
def toItem (d : SrcDoc) : DocItem :=
  .objD (some d.content) none none none (some d.title) (some d.dtype)

/-- The `patient_info` record built from the prepared documents (its other
keys are not among `_to_text`'s `common_fields`). -/
def recOf (docs : List SrcDoc) : PatientRecord :=
  { documents := some (docs.map toItem) }

/-- `generate_patient_summary_with_sources`: generation followed by
provenance post-processing. -/
def topGenerate (docs : List SrcDoc) (llm : Except (List Char) (List Char)) : Outcome :=
  processSummary (generateDischargeRun (recOf docs) llm).1 docs

example : toText (recOf [⟨str "A", str "L", str "x"⟩]) = str "===== A (L) =====\nx" := by decide
example : toText (recOf []) = [] := by decide
example : generateDischargeRun (recOf []) (.ok (str "hi")) =
    (str "No medical document content provided.", false) := by decide

/-!
## Spec-side definitions used by the claim statements
-/

/-- The labeled block the spec prescribes for a source document (with the
stripped content the dict branch of `_to_text` actually embeds). -/
def blockOf (d : SrcDoc) : List Char :=
  str "===== " ++ d.title ++ str " (" ++ d.dtype ++ str ") =====\n" ++ stripL d.content

/-- Every maximal run of `c` in the list (with `n` pending copies already
seen) is shorter than `k`. -/
def runBounded (c : Char) (k : Nat) : Nat → List Char → Bool
  | n, [] => decide (n < k)
  | n, a :: t =>
    if a = c then runBounded c k (n + 1) t else decide (n < k) && runBounded c k 0 t

/-!
## General lemmas
-/

theorem dedupGo_mem {α : Type} [DecidableEq α] :
    ∀ (l seen : List α) (x : α), x ∈ dedupGo seen l ↔ x ∈ l ∧ x ∉ seen := by
  intro l
  induction l with
  | nil => intro seen x; simp [dedupGo]
  | cons a t ih =>
    intro seen x
    by_cases h : a ∈ seen
    · by_cases hxa : x = a
      · subst hxa
        simp only [dedupGo, if_pos h, ih, List.mem_cons]
        tauto
      · simp only [dedupGo, if_pos h, ih, List.mem_cons]
        tauto
    · by_cases hxa : x = a
      · subst hxa
        simp only [dedupGo, if_neg h, ih, List.mem_cons]
        tauto
      · simp only [dedupGo, if_neg h, ih, List.mem_cons]
        tauto

theorem dedupGo_nodup {α : Type} [DecidableEq α] :
    ∀ (l seen : List α), (dedupGo seen l).Nodup := by
  intro l
  induction l with
  | nil => intro seen; simp [dedupGo]
  | cons a t ih =>
    intro seen
    by_cases h : a ∈ seen
    · simpa [dedupGo, if_pos h] using ih seen
    · simp only [dedupGo, if_neg h]
      refine List.nodup_cons.mpr ⟨?_, ih (a :: seen)⟩
      intro hc
      exact ((dedupGo_mem t (a :: seen) a).mp hc).2 (List.mem_cons_self a seen)

theorem dedupGo_sublist {α : Type} [DecidableEq α] :
    ∀ (l seen : List α), List.Sublist (dedupGo seen l) l := by
  intro l
  induction l with
  | nil => intro seen; simp [dedupGo]
  | cons a t ih =>
    intro seen
    by_cases h : a ∈ seen
    · simpa [dedupGo, if_pos h] using (ih seen).cons a
    · simpa [dedupGo, if_neg h] using (ih (a :: seen)).cons₂ a

theorem dedupFirst_nodup {α : Type} [DecidableEq α] (l : List α) : (dedupFirst l).Nodup :=
  dedupGo_nodup l []

theorem dedupFirst_sublist {α : Type} [DecidableEq α] (l : List α) :
    List.Sublist (dedupFirst l) l := dedupGo_sublist l []

theorem dedupFirst_mem {α : Type} [DecidableEq α] (l : List α) (x : α) :
    x ∈ dedupFirst l ↔ x ∈ l := by
  simpa [dedupFirst] using dedupGo_mem l [] x

theorem usageCount_bump (u : List (List Char × Nat)) (k' k : List Char) (n : Nat) :
    usageCount (bump u k' n) k = usageCount u k + (if k' = k then n else 0) := by
  induction u with
  | nil =>
    by_cases h : k' = k
    · simp [bump, usageCount, h]
    · simp [bump, usageCount, h]
  | cons p t ih =>
    obtain ⟨k₀, v₀⟩ := p
    by_cases h0 : k₀ = k'
    · subst h0
      by_cases h1 : k₀ = k
      · simp [bump, usageCount, h1, Nat.add_assoc, Nat.add_comm]
      · simp [bump, usageCount, h1]
    · by_cases h1 : k₀ = k
      · subst h1
        have h2 : ¬ (k' = k₀) := fun hc => h0 hc.symm
        simp [bump, usageCount, h0, h2, ih]
      · simp [bump, usageCount, h0, h1, ih]

theorem usageCount_foldl (pairs : List (List Char × List Char))
    (u : List (List Char × Nat)) (k : List Char) :
    usageCount (pairs.foldl (fun acc p => bump acc (resolveCode p.1) (stripL p.2).length) u) k =
      usageCount u k +
        ((pairs.filter (fun p => resolveCode p.1 = k)).map
          (fun p => (stripL p.2).length)).sum := by
  induction pairs generalizing u with
  | nil => simp
  | cons p rest ih =>
    by_cases h : resolveCode p.1 = k
    · simp only [List.foldl_cons, ih, usageCount_bump, List.filter_cons, h]
      simp [h, Nat.add_assoc, Nat.add_comm]
    · simp only [List.foldl_cons, ih, usageCount_bump, List.filter_cons, h]
      simp [h]

/-- The accumulated usage dict realizes the character-weighted sum over the
deduplicated tag list, category by category. -/
theorem usageCount_buildUsage (pairs : List (List Char × List Char)) (k : List Char) :
    usageCount (buildUsage pairs) k =
      ((pairs.filter (fun p => resolveCode p.1 = k)).map
        (fun p => (stripL p.2).length)).sum := by
  simpa [buildUsage, usageCount] using usageCount_foldl pairs [] k

theorem startsWithL_append (p m : List Char) : startsWithL p (p ++ m) = true := by
  induction p with
  | nil => rfl
  | cons a t ih => simp [startsWithL, ih]

theorem afterCode_len {wb : Bool} {t cd t3 : List Char}
    (h : afterCode wb t = some (cd, t3)) : t3.length < t.length := by
  simp only [afterCode] at h
  split at h
  · exact absurd h (by simp)
  · split at h
    · rename_i t3' heq
      simp only [Option.some.injEq, Prod.mk.injEq] at h
      obtain ⟨-, rfl⟩ := h
      have h1 : (t.dropWhile isTagCode).length ≤ t.length := (List.dropWhile_sublist _).length_le
      cases wb with
      | false =>
        simp only [Bool.false_eq_true, if_false] at heq
        have h2 := congrArg List.length heq
        simp only [List.length_cons] at h2
        omega
      | true =>
        simp only [if_true] at heq
        have h2 : ((t.dropWhile isTagCode).dropWhile isPyWs).length ≤
            (t.dropWhile isTagCode).length := (List.dropWhile_sublist _).length_le
        have h3 := congrArg List.length heq
        simp only [List.length_cons] at h3
        omega
    · exact absurd h (by simp)

theorem tagBody_len {wa : Bool} {t3 ct rest : List Char}
    (h : tagBody wa t3 = some (ct, rest)) : rest.length < t3.length := by
  simp only [tagBody] at h
  split at h
  · rename_i rest' heq
    have h4 : (']' :: rest').length ≤ t3.length := by
      rw [← heq]
      exact (List.dropWhile_sublist _).length_le
    simp only [List.length_cons] at h4
    have hr : rest = rest' := by
      split at h
      · split at h
        · split at h
          · simp only [Option.some.injEq, Prod.mk.injEq] at h
            exact h.2.symm
          · exact absurd h (by simp)
        · simp only [Option.some.injEq, Prod.mk.injEq] at h
          exact h.2.symm
      · split at h
        · exact absurd h (by simp)
        · simp only [Option.some.injEq, Prod.mk.injEq] at h
          exact h.2.symm
    rw [hr]
    omega
  · exact absurd h (by simp)

theorem matchTag_ne_head {wb wa : Bool} {a : Char} {t : List Char} (h : ¬ (a = '[')) :
    matchTag wb wa (a :: t) = none := by
  simp [matchTag, h]

theorem matchTag_len {wb wa : Bool} {l cd ct rest : List Char}
    (h : matchTag wb wa l = some (cd, ct, rest)) : rest.length < l.length := by
  cases l with
  | nil => exact absurd h (by simp [matchTag])
  | cons a t =>
    simp only [matchTag] at h
    split at h
    · split at h
      · exact absurd h (by simp)
      · rename_i pr heq
        split at h
        · exact absurd h (by simp)
        · rename_i pr2 heq2
          simp only [Option.some.injEq, Prod.mk.injEq] at h
          obtain ⟨-, -, rfl⟩ := h
          have h1 := afterCode_len heq
          have h2 := tagBody_len heq2
          simp only [List.length_cons]
          omega
    · exact absurd h (by simp)

theorem matchTag_head {wb wa : Bool} {a : Char} {t : List Char} {res}
    (h : matchTag wb wa (a :: t) = some res) : a = '[' := by
  by_contra hc
  rw [matchTag_ne_head hc] at h
  exact Option.noConfusion h

theorem elemC_eq_mem (c : Char) (l : List Char) : elemC c l = true ↔ c ∈ l := by
  induction l with
  | nil => simp [elemC]
  | cons a t ih =>
    simp only [elemC, Bool.or_eq_true, beq_iff_eq, ih, List.mem_cons]
    constructor
    · rintro (h | h)
      · exact Or.inl h.symm
      · exact Or.inr h
    · rintro (h | h)
      · exact Or.inl h.symm
      · exact Or.inr h

theorem mem_append_or {x : Char} {a b : List Char} (h : x ∈ a ++ b) : x ∈ a ∨ x ∈ b :=
  List.mem_append.mp h

/-- When every `[` reached by the P1 scan opens a tag whose content has no
`[`, the tag-substitution pass erases every opening bracket. -/
theorem subGo_no_bracket :
    ∀ (f : Nat) (l : List Char), l.length ≤ f → okGo f l = true → '[' ∉ subGo f l := by
  intro f
  induction f with
  | zero =>
    intro l hl _
    have : l = [] := List.eq_nil_of_length_eq_zero (Nat.le_zero.mp hl)
    subst this
    simp [subGo]
  | succ f ih =>
    intro l hl hok
    cases l with
    | nil => simp [subGo]
    | cons a t =>
      by_cases ha : a = '['
      · subst ha
        cases hm : matchTag false true ('[' :: t) with
        | none =>
          simp only [okGo, hm] at hok
          simp at hok
        | some res =>
          obtain ⟨cd, ct, rest⟩ := res
          simp only [okGo, hm, Bool.and_eq_true, Bool.not_eq_true'] at hok
          obtain ⟨hct, hrest⟩ := hok
          have hctm : '[' ∉ ct := by
            intro hc
            rw [(elemC_eq_mem '[' ct).mpr hc] at hct
            exact Bool.noConfusion hct
          have hlen : rest.length ≤ f := by
            have := matchTag_len hm
            simp only [List.length_cons] at this hl
            omega
          simp only [subGo, hm]
          intro hc
          rcases mem_append_or hc with h1 | h1
          · exact hctm h1
          · exact ih rest hlen hrest h1
      · have hm : matchTag false true (a :: t) = none := matchTag_ne_head ha
        simp only [okGo, hm, Bool.and_eq_true, bne_iff_ne, ne_eq] at hok
        obtain ⟨-, hok⟩ := hok
        have hlen : t.length ≤ f := by
          simp only [List.length_cons] at hl
          omega
        simp only [subGo, hm]
        intro hc
        rcases List.mem_cons.mp hc with rfl | hc'
        · exact ha rfl
        · exact ih t hlen hok hc'

/-- A text matching the tag grammar somewhere contains an opening bracket. -/
theorem hasGo_bracket : ∀ (f : Nat) (l : List Char), hasGo f l = true → '[' ∈ l := by
  intro f
  induction f with
  | zero => intro l h; simp [hasGo] at h
  | succ f ih =>
    intro l h
    cases l with
    | nil => simp [hasGo] at h
    | cons a t =>
      simp only [hasGo, Bool.or_eq_true] at h
      rcases h with h | h
      · have ha : a = '[' := by
          by_contra hc
          rw [matchTag_ne_head hc] at h
          simp at h
        subst ha
        exact List.mem_cons_self _ _
      · exact List.mem_cons_of_mem a (ih t h)

theorem hasTagSub_eq_false {l : List Char} (h : '[' ∉ l) : hasTagSub l = false := by
  by_contra hc
  have := hasGo_bracket l.length l (by
    cases h2 : hasTagSub l
    · exact absurd h2 hc
    · exact h2)
  exact h this

theorem crGo_mem {c : Char} {k m : Nat} :
    ∀ (l : List Char) (n : Nat) (x : Char), x ∈ crGo c k m n l → x = c ∨ x ∈ l := by
  intro l
  induction l with
  | nil =>
    intro n x hx
    simp only [crGo] at hx
    exact Or.inl (List.eq_of_mem_replicate hx)
  | cons a t ih =>
    intro n x hx
    by_cases ha : a = c
    · subst ha
      simp only [crGo, if_pos rfl] at hx
      rcases ih (n + 1) x hx with h | h
      · exact Or.inl h
      · exact Or.inr (List.mem_cons_of_mem a h)
    · simp only [crGo, if_neg ha] at hx
      rcases mem_append_or hx with h | h
      · exact Or.inl (List.eq_of_mem_replicate h)
      · rcases List.mem_cons.mp h with rfl | h'
        · exact Or.inr (List.mem_cons_self _ _)
        · rcases ih 0 x h' with h2 | h2
          · exact Or.inl h2
          · exact Or.inr (List.mem_cons_of_mem a h2)

theorem collapseRuns_not_mem {c x : Char} {k m : Nat} {l : List Char}
    (hx : ¬ (x = c)) (h : x ∉ l) : x ∉ collapseRuns c k m l := by
  intro hc
  rcases crGo_mem l 0 x hc with h1 | h1
  · exact hx h1
  · exact h h1

theorem sbGo_mem : ∀ (f : Nat) (b : Bool) (l : List Char) (x : Char),
    x ∈ sbGo f b l → x ∈ l := by
  intro f
  induction f with
  | zero => intro b l x hx; simpa [sbGo] using hx
  | succ f ih =>
    intro b l x hx
    cases l with
    | nil => simp [sbGo] at hx
    | cons a t =>
      by_cases hb : b
      · subst hb
        simp only [sbGo] at hx
        cases hm : bulletMatch (a :: t) with
        | some p =>
          rw [hm] at hx
          exact (List.drop_sublist p.1 (a :: t)).mem (ih p.2 _ x hx)
        | none =>
          rw [hm] at hx
          rcases List.mem_cons.mp hx with rfl | h'
          · exact List.mem_cons_self _ _
          · exact List.mem_cons_of_mem a (ih _ t x h')
      · have hb' : b = false := Bool.eq_false_iff.mpr hb
        subst hb'
        simp only [sbGo] at hx
        rcases List.mem_cons.mp hx with rfl | h'
        · exact List.mem_cons_self _ _
        · exact List.mem_cons_of_mem a (ih _ t x h')

theorem stripBullets_not_mem {x : Char} {l : List Char} (h : x ∉ l) : x ∉ stripBullets l :=
  fun hc => h (sbGo_mem l.length true l x hc)

theorem stripL_mem {x : Char} {l : List Char} (h : x ∈ stripL l) : x ∈ l := by
  have h1 : x ∈ stripLeftL l := by
    have h2 : x ∈ (stripLeftL l).reverse.dropWhile isPyWs :=
      List.mem_reverse.mp (by simpa [stripL, stripRightL] using h)
    exact List.mem_reverse.mp ((List.dropWhile_sublist isPyWs).mem h2)
  exact (List.dropWhile_sublist isPyWs).mem h1

theorem stripL_not_mem {x : Char} {l : List Char} (h : x ∉ l) : x ∉ stripL l :=
  fun hc => h (stripL_mem hc)

theorem splitNl_mem : ∀ (l ln : List Char) (x : Char),
    ln ∈ splitNl l → x ∈ ln → x ∈ l := by
  intro l
  induction l with
  | nil =>
    intro ln x hln hx
    simp only [splitNl, List.mem_singleton] at hln
    subst hln
    simp at hx
  | cons a t ih =>
    intro ln x hln hx
    by_cases ha : a = '\n'
    · simp only [splitNl, if_pos ha] at hln
      rcases List.mem_cons.mp hln with rfl | h'
      · simp at hx
      · exact List.mem_cons_of_mem a (ih ln x h' hx)
    · simp only [splitNl, if_neg ha] at hln
      rcases hsp : splitNl t with _ | ⟨h0, r⟩
      · rw [hsp] at hln
        simp only [List.mem_singleton] at hln
        subst hln
        rcases List.mem_singleton.mp hx with rfl
        exact List.mem_cons_self _ _
      · rw [hsp] at hln
        rcases List.mem_cons.mp hln with rfl | h'
        · rcases List.mem_cons.mp hx with rfl | h2
          · exact List.mem_cons_self _ _
          · exact List.mem_cons_of_mem a (ih h0 x (hsp ▸ List.mem_cons_self _ _) h2)
        · exact List.mem_cons_of_mem a (ih ln x (hsp ▸ List.mem_cons_of_mem h0 h') hx)

theorem joinSep_mem {sep : List Char} : ∀ (chunks : List (List Char)) (x : Char),
    x ∈ joinSep sep chunks → x ∈ sep ∨ ∃ ln, ln ∈ chunks ∧ x ∈ ln := by
  intro chunks
  induction chunks with
  | nil => intro x hx; simp [joinSep] at hx
  | cons a r ih =>
    intro x hx
    cases r with
    | nil =>
      simp only [joinSep] at hx
      exact Or.inr ⟨a, List.mem_singleton.mpr rfl, hx⟩
    | cons b r' =>
      simp only [joinSep] at hx
      rcases mem_append_or hx with h1 | h1
      · rcases mem_append_or h1 with h2 | h2
        · exact Or.inr ⟨a, List.mem_cons_self _ _, h2⟩
        · exact Or.inl h2
      · rcases ih x h1 with h2 | ⟨ln, hln, hxl⟩
        · exact Or.inl h2
        · exact Or.inr ⟨ln, List.mem_cons_of_mem a hln, hxl⟩

theorem stripLines_not_mem {x : Char} {l : List Char} (hx : ¬ (x = '\n')) (h : x ∉ l) :
    x ∉ stripLines l := by
  intro hc
  rcases joinSep_mem _ x hc with h1 | ⟨ln, hln, hxl⟩
  · rcases List.mem_singleton.mp h1 with rfl
    exact hx rfl
  · obtain ⟨ln0, hln0, rfl⟩ := List.mem_map.mp hln
    exact h (splitNl_mem l ln0 x hln0 (stripL_mem hxl))

/-- Decoration cleanup never introduces an opening bracket. -/
theorem cleanDocL_no_bracket {l : List Char} (h : '[' ∉ l) : '[' ∉ cleanDocL l := by
  unfold cleanDocL
  apply stripL_not_mem
  apply stripLines_not_mem (by decide)
  apply collapseRuns_not_mem (by decide)
  apply collapseRuns_not_mem (by decide)
  apply collapseRuns_not_mem (by decide)
  apply collapseRuns_not_mem (by decide)
  apply collapseRuns_not_mem (by decide)
  apply stripBullets_not_mem
  exact collapseRuns_not_mem (by decide) h

theorem crGo_fix {c : Char} {k m : Nat} :
    ∀ (l : List Char) (n : Nat), runBounded c k n l = true →
      crGo c k m n l = List.replicate n c ++ l := by
  intro l
  induction l with
  | nil =>
    intro n h
    simp only [runBounded, decide_eq_true_eq] at h
    have hn : ¬ (n ≥ k) := by omega
    simp [crGo, hn]
  | cons a t ih =>
    intro n h
    by_cases ha : a = c
    · subst ha
      simp only [runBounded, if_pos rfl] at h
      simp only [crGo, if_pos rfl, ih (n + 1) h]
      rw [List.replicate_succ']
      simp [List.append_assoc]
    · simp only [runBounded, if_neg ha, Bool.and_eq_true, decide_eq_true_eq] at h
      obtain ⟨h1, h2⟩ := h
      have hn : ¬ (n ≥ k) := by omega
      simp [crGo, ha, hn, ih 0 h2]

theorem runBounded_append {c : Char} {k : Nat} (hk : 0 < k) :
    ∀ (j n : Nat) (rest : List Char),
      (∀ (b : Char) (t' : List Char), rest = b :: t' → ¬ (b = c)) →
      runBounded c k n (List.replicate j c ++ rest) =
        (decide (n + j < k) && runBounded c k 0 rest) := by
  intro j
  induction j with
  | zero =>
    intro n rest hrest
    cases rest with
    | nil => simp [runBounded, hk]
    | cons b t' =>
      have hb : ¬ (b = c) := hrest b t' rfl
      simp [runBounded, hb, hk, Bool.and_assoc]
  | succ j ih =>
    intro n rest hrest
    have hstep : runBounded c k n (c :: (List.replicate j c ++ rest)) =
        runBounded c k (n + 1) (List.replicate j c ++ rest) := by
      simp [runBounded]
    have harith : n + 1 + j = n + (j + 1) := by omega
    rw [List.replicate_succ, List.cons_append, hstep, ih (n + 1) rest hrest, harith]

theorem crGo_runBounded {c : Char} {k m : Nat} (hmk : m < k) :
    ∀ (l : List Char) (n : Nat), runBounded c k 0 (crGo c k m n l) = true := by
  have hk : 0 < k := Nat.lt_of_le_of_lt (Nat.zero_le m) hmk
  intro l
  induction l with
  | nil =>
    intro n
    have hj : (if n ≥ k then m else n) < k := by
      split
      · exact hmk
      · omega
    simp only [crGo]
    rw [← List.append_nil (List.replicate (if n ≥ k then m else n) c)]
    rw [runBounded_append hk _ 0 [] (fun b t' h => by cases h)]
    simp [runBounded, hk, hj]
  | cons a t ih =>
    intro n
    by_cases ha : a = c
    · subst ha
      simp only [crGo, if_pos rfl]
      exact ih (n + 1)
    · have hj : (if n ≥ k then m else n) < k := by
        split
        · exact hmk
        · omega
      simp only [crGo, if_neg ha]
      rw [runBounded_append hk _ 0 (a :: crGo c k m 0 t)
        (fun b t' h => by cases h; exact ha)]
      simp [runBounded, ha, hk, hj, ih 0]

/-- Each single run-collapsing pass is idempotent. -/
theorem collapseRuns_idem (c : Char) (k m : Nat) (l : List Char) (h : m < k) :
    collapseRuns c k m (collapseRuns c k m l) = collapseRuns c k m l := by
  have hb := @crGo_runBounded c k m h l 0
  have ha := @crGo_fix c k m (crGo c k m 0 l) 0 hb
  simpa [collapseRuns] using ha

theorem collectRoot_nil :
    ∀ (entries : List (List Char × Option (List Char))),
      (entries.all fun p =>
        match p.2 with
        | none => true
        | some s => (stripL s).isEmpty) = true →
      collectRoot entries = [] := by
  intro entries
  induction entries with
  | nil => intro _; rfl
  | cons p t ih =>
    intro h
    obtain ⟨name, v⟩ := p
    simp only [List.all_cons, Bool.and_eq_true] at h
    obtain ⟨h1, h2⟩ := h
    cases v with
    | none => simpa [collectRoot] using ih h2
    | some s =>
      simp only at h1
      simp [collectRoot, h1, ih h2]

theorem collectGo_blocks :
    ∀ (docs : List SrcDoc) (idx : Nat),
      (∀ d ∈ docs, (stripL d.content).isEmpty = false) →
      collectGo idx (docs.map toItem) = docs.map blockOf := by
  intro docs
  induction docs with
  | nil => intro idx _; rfl
  | cons d rest ih =>
    intro idx h
    have hd : (stripL d.content).isEmpty = false := h d (List.mem_cons_self _ _)
    have hr : ∀ d' ∈ rest, (stripL d'.content).isEmpty = false :=
      fun d' hm => h d' (List.mem_cons_of_mem _ hm)
    simp [collectGo, renderItem, toItem, firstTextVal, hd, blockOf, ih (idx + 1) hr]

/-!
## Claim theorems
-/

/-- C1 (counterexample): a raw text consisting of one well-formed source tag
and lacking the compliance marker `SOURCE_TRACKING_ENABLED: YES` does trigger
the fallback tagger, contradicting the claim that the presence of a
well-formed tag prevents the fallback from being invoked. -/
theorem claim1_counterexample :
    hasTagSub (str "[LAB: Troponin 2.5 elevated]") = true ∧
    fallbackInvoked (str "[LAB: Troponin 2.5 elevated]") = true := by
  decide

/-- C1 (amended): the fallback tagger is invoked exactly when the raw text
lacks the literal marker `SOURCE_TRACKING_ENABLED: YES`, regardless of tags;
`highlighted_summary` is always the decoration-cleaned original raw text
(fallback output never reaches it); and when the marker is present the usage
statistics are computed from the raw text itself. -/
theorem claim1_amended (raw : List Char) (docs : List SrcDoc) :
    fallbackInvoked raw = !(containsSub trackingMarker raw) ∧
    (processSummary raw docs).highlighted_summary = cleanDocL raw ∧
    (containsSub trackingMarker raw = true →
      (processSummary raw docs).source_usage = buildUsage (extractPairs raw)) := by
  refine ⟨rfl, rfl, ?_⟩
  intro h
  simp [processSummary, fallbackInvoked, h]

/-- C1 (witness): the amended theorem applied at a concrete marker-bearing
raw text. -/
theorem claim1_amended_witness :
    containsSub trackingMarker (str "SOURCE_TRACKING_ENABLED: YES [LAB: x]") = true ∧
    (processSummary (str "SOURCE_TRACKING_ENABLED: YES [LAB: x]") []).source_usage =
      buildUsage (extractPairs (str "SOURCE_TRACKING_ENABLED: YES [LAB: x]")) :=
  ⟨by decide, (claim1_amended (str "SOURCE_TRACKING_ENABLED: YES [LAB: x]") []).2.2 (by decide)⟩

/-- C2 (counterexample): the raw text holding the same `[LAB: ...]` tag twice
yields usage 42 for "Lab Results", not the 21 characters of one trimmed
occurrence: patterns P1 and P2 capture the content with and without its
leading space, so the occurrence survives deduplication as two distinct
`(code, content)` pairs, and the counter is incremented twice. -/
theorem claim2_counterexample :
    usageCount
      (processSummary (str "[LAB: Troponin 2.5 elevated] [LAB: Troponin 2.5 elevated]")
        []).source_usage (str "Lab Results") = 42 ∧
    (str "Troponin 2.5 elevated").length = 21 ∧
    extractPairs (str "[LAB: Troponin 2.5 elevated] [LAB: Troponin 2.5 elevated]") =
      [(str "LAB", str "Troponin 2.5 elevated"), (str "LAB", str " Troponin 2.5 elevated")] := by
  decide

/-- C2 (amended): deduplication is a stable first-seen-order dedup (no
duplicates, a subsequence of the pool, same members), and the usage counter
adds the trimmed-content length of each surviving distinct pair exactly once
per pair — but a single textual occurrence can survive as two distinct pairs
(content captured with and without leading whitespace), so it can be counted
twice. -/
theorem claim2_amended (raw : List Char) (k : List Char) :
    usageCount (buildUsage (extractPairs raw)) k =
      (((extractPairs raw).filter (fun p => resolveCode p.1 = k)).map
        (fun p => (stripL p.2).length)).sum ∧
    (extractPairs raw).Nodup ∧
    List.Sublist (extractPairs raw) (pooledMatches raw) ∧
    (∀ p, p ∈ extractPairs raw ↔ p ∈ pooledMatches raw) :=
  ⟨usageCount_buildUsage _ _, dedupFirst_nodup _, dedupFirst_sublist _,
    fun p => dedupFirst_mem _ p⟩

/-- C3 (code bug): the normalizer is not idempotent.  The guard checks for
the literal `IMPORTANT:`, but the block it prepends only contains
`IMPORTANT INSTRUCTIONS:`, which does not contain that literal, so a second
application prepends the directive block again. -/
theorem claim3_code_bug_eval :
    cleanTemplateContent (cleanTemplateContent (str "foo")) ≠ cleanTemplateContent (str "foo") ∧
    cleanTemplateContent (str "foo") = importantBlock ++ str "foo" ∧
    cleanTemplateContent (importantBlock ++ str "foo") =
      importantBlock ++ (importantBlock ++ str "foo") := by
  decide

/-- C4 (counterexample): decoration cleanup is not idempotent — the bullet
pass strips one leading bullet marker per application, so `"- - foo"` cleans
to `"- foo"` and cleans again to `"foo"`. -/
theorem claim4_counterexample :
    cleanDocL (cleanDocL (str "- - foo")) ≠ cleanDocL (str "- - foo") := by
  decide

/-- C4 (amended): cleanup as a whole is not idempotent, but each individual
run-collapsing pass is, and re-applying the cleanup changes nothing exactly
on strings the cleanup already fixes. -/
theorem claim4_amended :
    (∀ (c : Char) (k m : Nat) (l : List Char), m < k →
      collapseRuns c k m (collapseRuns c k m l) = collapseRuns c k m l) ∧
    (∀ s : List Char, cleanDocL s = s → cleanDocL (cleanDocL s) = cleanDocL s) :=
  ⟨fun c k m l h => collapseRuns_idem c k m l h,
   fun s h => by rw [h]; exact h⟩

/-- C4 (witness): the amended theorem applied at concrete inputs. -/
theorem claim4_amended_witness :
    ((0 : Nat) < 3 ∧
      collapseRuns '*' 3 0 (collapseRuns '*' 3 0 (str "a***b")) =
        collapseRuns '*' 3 0 (str "a***b")) ∧
    (cleanDocL (str "abc") = str "abc" ∧
      cleanDocL (cleanDocL (str "abc")) = cleanDocL (str "abc")) :=
  ⟨⟨by decide, claim4_amended.1 '*' 3 0 (str "a***b") (by decide)⟩,
   ⟨by decide, claim4_amended.2 (str "abc") (by decide)⟩⟩

/-- C5 (counterexample): one substitution pass does not remove every
tag-grammar substring: with a nested opening bracket inside a tag's content,
the concatenation of replacements itself matches the grammar, so the final
summary still contains a tag-shaped substring. -/
theorem claim5_counterexample :
    hasTagSub
      ((processSummary (str "SOURCE_TRACKING_ENABLED: YES\n[LAB: [MED: y] z]") []).summary) =
      true := by
  decide

/-- C5 (amended): when the fallback is skipped (marker present) and every
opening bracket of the raw text opens a well-formed tag whose content has no
opening bracket, the returned summary contains no substring matching the
source-tag grammar. -/
theorem claim5_amended (raw : List Char) (docs : List SrcDoc)
    (hm : containsSub trackingMarker raw = true)
    (hok : okBrackets raw = true) :
    hasTagSub ((processSummary raw docs).summary) = false := by
  have hs1 : (processSummary raw docs).summary = cleanDocL (stripTags raw) := by
    simp [processSummary, fallbackInvoked, hm]
  rw [hs1]
  have h1 : '[' ∉ stripTags raw := subGo_no_bracket raw.length raw (Nat.le_refl _) hok
  exact hasTagSub_eq_false (cleanDocL_no_bracket h1)

/-- C5 (witness): the amended theorem applied at a concrete raw text. -/
theorem claim5_amended_witness :
    containsSub trackingMarker (str "SOURCE_TRACKING_ENABLED: YES\n[LAB: ok]") = true ∧
    okBrackets (str "SOURCE_TRACKING_ENABLED: YES\n[LAB: ok]") = true ∧
    hasTagSub
      ((processSummary (str "SOURCE_TRACKING_ENABLED: YES\n[LAB: ok]") []).summary) = false :=
  ⟨by decide, by decide,
    claim5_amended (str "SOURCE_TRACKING_ENABLED: YES\n[LAB: ok]") [] (by decide) (by decide)⟩

/-- C6: a failing inference call is converted into a result string carrying
the fixed `Error generating summary:` prefix, and the pipeline is a total
function into `Outcome` — every input receives a structured result, never an
exception. -/
theorem claim6_error_wrapping (rec : PatientRecord) (e : List Char)
    (h : (toText rec).isEmpty = false) :
    (generateDischargeRun rec (.error e)).1 = str "Error generating summary: " ++ e ∧
    startsWithL (str "Error generating summary:") (generateDischargeRun rec (.error e)).1 =
      true ∧
    (∀ (docs : List SrcDoc) (llm : Except (List Char) (List Char)),
      ∃ o : Outcome, topGenerate docs llm = o) := by
  have h1 : (generateDischargeRun rec (.error e)).1 = str "Error generating summary: " ++ e := by
    simp [generateDischargeRun, h]
  refine ⟨h1, ?_, fun docs llm => ⟨topGenerate docs llm, rfl⟩⟩
  rw [h1]
  have h3 : str "Error generating summary: " = str "Error generating summary:" ++ [' '] := by
    decide
  rw [h3, List.append_assoc]
  exact startsWithL_append _ _

/-- C6 (witness): the theorem applied at a concrete record and error. -/
theorem claim6_witness :
    (toText (recOf [⟨str "t", str "L", str "x"⟩])).isEmpty = false ∧
    startsWithL (str "Error generating summary:")
      (generateDischargeRun (recOf [⟨str "t", str "L", str "x"⟩]) (.error (str "boom"))).1 =
      true :=
  ⟨by decide, (claim6_error_wrapping (recOf [⟨str "t", str "L", str "x"⟩]) (str "boom")
    (by decide)).2.1⟩

/-- C7: with an empty documents list and every recognized root field empty or
absent, generation returns the exact sentinel without invoking inference, and
the full pipeline's summary is exactly the sentinel. -/
theorem claim7_no_content (rec : PatientRecord) (llm : Except (List Char) (List Char))
    (hdoc : rec.documents = some [])
    (hroot : allRootEmpty rec = true) :
    generateDischargeRun rec llm = (str "No medical document content provided.", false) ∧
    (∀ llm2 : Except (List Char) (List Char),
      (topGenerate [] llm2).summary = str "No medical document content provided." ∧
      (generateDischargeRun (recOf []) llm2).2 = false) := by
  have h1 : collectDocs rec.documents = [] := by rw [hdoc]; rfl
  have h2 : collectRoot (rootEntries rec) = [] := collectRoot_nil _ hroot
  have htext : toText rec = [] := by
    simp [toText, h1, h2, joinSep, stripL, stripLeftL, stripRightL]
  constructor
  · simp [generateDischargeRun, htext]
  · intro llm2
    have htext0 : toText (recOf []) = [] := by decide
    have hgen : generateDischargeRun (recOf []) llm2 =
        (str "No medical document content provided.", false) := by
      simp [generateDischargeRun, htext0]
    constructor
    · show (processSummary (generateDischargeRun (recOf []) llm2).1 []).summary = _
      rw [hgen]
      decide
    · rw [hgen]

/-- C7 (witness): the theorem applied at the concrete empty record. -/
theorem claim7_witness :
    ((recOf []).documents = some [] ∧ allRootEmpty (recOf []) = true) ∧
    generateDischargeRun (recOf []) (.ok (str "hi")) =
      (str "No medical document content provided.", false) :=
  ⟨⟨by decide, by decide⟩,
    (claim7_no_content (recOf []) (.ok (str "hi")) (by decide) (by decide)).1⟩

/-- C8 (counterexample): a document whose content is whitespace-only is not
rendered with its content — the dict branch falls through to the next
text-bearing key and embeds the title as the block body — and rendered
content is stripped, so the corpus differs from one verbatim
`===== title (type) =====\ncontent` block per document. -/
theorem claim8_counterexample :
    toText (recOf [⟨str "A", str "L", str " "⟩, ⟨str "B", str "M", str " x "⟩]) =
      str "===== A (L) =====\nA\n\n===== B (M) =====\nx" ∧
    toText (recOf [⟨str "A", str "L", str " "⟩, ⟨str "B", str "M", str " x "⟩]) ≠
      str "===== A (L) =====\n \n\n===== B (M) =====\n x " := by
  decide

/-- C8 (amended): for a non-empty document list in which every document's
content strips to a non-empty string, the corpus is exactly the
`===== title (type) =====\n{stripped content}` blocks joined by a blank
line, in input order (and finally trimmed). -/
theorem claim8_amended (docs : List SrcDoc)
    (hne : docs ≠ [])
    (hc : ∀ d ∈ docs, (stripL d.content).isEmpty = false) :
    toText (recOf docs) = stripL (joinSep (str "\n\n") (docs.map blockOf)) := by
  have h1 : collectGo 0 (docs.map toItem) = docs.map blockOf := collectGo_blocks docs 0 hc
  have h2 : (docs.map blockOf).isEmpty = false := by
    cases docs with
    | nil => exact absurd rfl hne
    | cons d r => rfl
  simp [toText, recOf, collectDocs, h1, h2]

/-- C8 (witness): the amended theorem applied at a concrete two-document
list. -/
theorem claim8_amended_witness :
    ([⟨str "A", str "L", str "x"⟩, ⟨str "B", str "M", str "y"⟩] ≠ ([] : List SrcDoc)) ∧
    toText (recOf [⟨str "A", str "L", str "x"⟩, ⟨str "B", str "M", str "y"⟩]) =
      stripL (joinSep (str "\n\n")
        ([⟨str "A", str "L", str "x"⟩, ⟨str "B", str "M", str "y"⟩].map blockOf)) :=
  ⟨by decide,
    claim8_amended [⟨str "A", str "L", str "x"⟩, ⟨str "B", str "M", str "y"⟩]
      (by decide) (by decide)⟩

/-- C9 (counterexample): normalizing a template that contains
`{patient_name}` and `{admission_date}` but no `IMPORTANT:` yields both
extraction instructions, yet the literal `IMPORTANT:` occurs zero times —
not once — because the prepended block's header is `IMPORTANT INSTRUCTIONS:`,
which does not contain the `IMPORTANT:` literal. -/
theorem claim9_counterexample :
    countOcc (str "IMPORTANT:")
      (cleanTemplateContent (str "Patient: \x7bpatient_name\x7d\nAdmitted: \x7badmission_date\x7d")) ≠ 1 ∧
    containsSub (str "[EXTRACT PATIENT NAME FROM DOCUMENTS]")
      (cleanTemplateContent (str "Patient: \x7bpatient_name\x7d\nAdmitted: \x7badmission_date\x7d")) = true ∧
    containsSub (str "[EXTRACT ADMISSION DATE FROM DOCUMENTS]")
      (cleanTemplateContent (str "Patient: \x7bpatient_name\x7d\nAdmitted: \x7badmission_date\x7d")) = true := by
  decide

/-- C9 (amended): both extraction instructions are produced; `IMPORTANT:`
occurs zero times when the template lacks it, and exactly once when the
template itself carries it once (the prepended directive block never
contributes an occurrence). -/
theorem claim9_amended :
    countOcc (str "IMPORTANT:")
      (cleanTemplateContent (str "Patient: \x7bpatient_name\x7d\nAdmitted: \x7badmission_date\x7d")) = 0 ∧
    countOcc (str "IMPORTANT:")
      (cleanTemplateContent
        (str "IMPORTANT: fill in\nPatient: \x7bpatient_name\x7d\nAdmitted: \x7badmission_date\x7d")) = 1 ∧
    containsSub (str "[EXTRACT PATIENT NAME FROM DOCUMENTS]")
      (cleanTemplateContent
        (str "IMPORTANT: fill in\nPatient: \x7bpatient_name\x7d\nAdmitted: \x7badmission_date\x7d")) = true ∧
    containsSub (str "[EXTRACT ADMISSION DATE FROM DOCUMENTS]")
      (cleanTemplateContent
        (str "IMPORTANT: fill in\nPatient: \x7bpatient_name\x7d\nAdmitted: \x7badmission_date\x7d")) = true := by
  decide

/-- C10: when the first type-matching document's content is the empty string,
the attribution's `source_document` is the sentinel, and the record is
indistinguishable from one built with no matching document at all. -/
theorem claim10_empty_content (docs : List SrcDoc) (code content : List Char)
    (h : findDocContent docs (resolveCode code) = some []) :
    (mkAttribution docs code content).source_document = str "Source document not found" ∧
    mkAttribution docs code content = mkAttribution [] code content := by
  constructor
  · simp [mkAttribution, sourceDocField, h]
  · simp [mkAttribution, sourceDocField, h, findDocContent]

/-- C10 (witness): the theorem applied at a concrete empty-content match. -/
theorem claim10_witness :
    findDocContent [⟨str "f.txt", str "Lab Results", []⟩] (resolveCode (str "LAB")) =
      some [] ∧
    (mkAttribution [⟨str "f.txt", str "Lab Results", []⟩] (str "LAB")
      (str "x")).source_document = str "Source document not found" :=
  ⟨by decide,
    (claim10_empty_content [⟨str "f.txt", str "Lab Results", []⟩] (str "LAB") (str "x")
      (by decide)).1⟩
